import Mathlib

/-!
Verification development for the doc-manager OCR / sidecar subsystem.

Shallow embedding of:
- `lib/pdf/ocr.py`   : `_extract_page_progress`, `_pick_lang`, `run_ocr`,
                       `_run_cli_streaming` (supervisor loop)
- `lib/pdf/sidecar.py`: `normalize_json_text`, `load_sidecar_dict`,
                       `update_sidecar_ocr`
- `lib/pdf/info.py`  : `quick_pdf_info`
- `pages/25_...py`   : sidecar classification pass (`write_sidecar_if_needed`
                       and the scan loop)

External collaborators (tesseract language listing, the ocrmypdf backends,
the filesystem, `json.loads`) are modelled as explicit oracle parameters;
everything else is translated from the source.
-/

namespace DocMgr

/-! ## Character classes (ASCII fragment of Python `re` classes `\s`, `\d`, `\w`) -/

/-- Python `\s` (ASCII fragment): space, tab, newline, carriage return,
vertical tab, form feed. -/
def isSpaceCh (c : Char) : Bool :=
  c = ' ' || c = '\t' || c = '\n' || c = '\r' || c = Char.ofNat 11 || c = Char.ofNat 12

/-- Python `\d` (ASCII fragment). -/
def isDigitCh (c : Char) : Bool := c.isDigit

/-- Python `\w` (ASCII fragment): letters, digits, underscore. -/
def isWordCh (c : Char) : Bool := c.isAlphanum || c = '_'

/-- Case-insensitive character comparison (re.IGNORECASE). -/
def lcEq (a b : Char) : Bool := a.toLower = b.toLower

/-- Numeric value of a digit string, as produced by Python `int(...)`. -/
def digitsVal (ds : List Char) : Nat :=
  ds.foldl (fun a c => a * 10 + (c.toNat - 48)) 0

/-! ## Regex-token consumers over `List Char`

Each consumer returns the remaining input on success.  Maximal munch is
exact for the patterns of `_PAGE_PATTERNS` because every `\d+`/`\s+` is
followed by a token that cannot consume a digit/space. -/

/-- Consume a literal, case-insensitively. -/
def eatLitCI : List Char → List Char → Option (List Char)
  | [], rest => some rest
  | _ :: _, [] => none
  | p :: ps, c :: cs => if lcEq p c then eatLitCI ps cs else none

/-- Consume `\s*`. -/
def dropWs (cs : List Char) : List Char := cs.dropWhile isSpaceCh

/-- Consume `\s+`. -/
def eatWs1 : List Char → Option (List Char)
  | [] => none
  | c :: cs => if isSpaceCh c then some (dropWs cs) else none

/-- Consume one exact character. -/
def eatChar (c : Char) : List Char → Option (List Char)
  | [] => none
  | c' :: cs => if c' = c then some cs else none

/-- Consume `\d+`, returning its numeric value. -/
def eatDigits (cs : List Char) : Option (Nat × List Char) :=
  match cs.takeWhile isDigitCh with
  | [] => none
  | ds => some (digitsVal ds, cs.dropWhile isDigitCh)

/-- `s?\b` after the literal `page` (with the one backtracking case of
`pages?\b` handled exactly: taking the `s` must leave a word boundary,
otherwise the empty alternative needs a boundary right here). -/
def sOptB : List Char → Bool
  | [] => true
  | c :: r =>
    if lcEq c 's' then
      match r with
      | [] => true
      | d :: _ => !(isWordCh d)
    else !(isWordCh c)

/-! ## The five patterns of `_PAGE_PATTERNS`, matched at a fixed position -/

/-- Pattern 1: `(?:Page|page)\s+(\d+)\s*/\s*(\d+)`. -/
def matchP1At (cs : List Char) : Option (Nat × Nat) := do
  let r ← eatLitCI "page".toList cs
  let r ← eatWs1 r
  let (a, r) ← eatDigits r
  let r ← eatChar '/' (dropWs r)
  let (b, _) ← eatDigits (dropWs r)
  pure (a, b)

/-- Pattern 2: `(?:Page|page)\s+(\d+)\s+(?:of)\s+(\d+)`. -/
def matchP2At (cs : List Char) : Option (Nat × Nat) := do
  let r ← eatLitCI "page".toList cs
  let r ← eatWs1 r
  let (a, r) ← eatDigits r
  let r ← eatWs1 r
  let r ← eatLitCI "of".toList r
  let r ← eatWs1 r
  let (b, _) ← eatDigits r
  pure (a, b)

/-- Pattern 3 body (after its leading `\b`): `(\d+)\s*/\s*(\d+)\s+pages?\b`. -/
def matchP3At (cs : List Char) : Option (Nat × Nat) := do
  let (a, r) ← eatDigits cs
  let r ← eatChar '/' (dropWs r)
  let (b, r) ← eatDigits (dropWs r)
  let r ← eatWs1 r
  let r ← eatLitCI "page".toList r
  if sOptB r then pure (a, b) else none

/-- Pattern 4 body (after its leading `\b`): `(\d+)\s+(?:of)\s+(\d+)\s+pages?\b`. -/
def matchP4At (cs : List Char) : Option (Nat × Nat) := do
  let (a, r) ← eatDigits cs
  let r ← eatWs1 r
  let r ← eatLitCI "of".toList r
  let r ← eatWs1 r
  let (b, r) ← eatDigits r
  let r ← eatWs1 r
  let r ← eatLitCI "page".toList r
  if sOptB r then pure (a, b) else none

/-- Pattern 5: `(?:processing|process)\s+(?:page)\s+(\d+)\s+(?:of)\s+(\d+)`.
Trying the long alternative first and committing is exact: whenever
`processing` matches, the continuation of the `process` branch sees `i`
where `\s+` is required, so no cross-branch backtracking can succeed. -/
def matchP5At (cs : List Char) : Option (Nat × Nat) := do
  let r ← match eatLitCI "processing".toList cs with
          | some r => some r
          | none => eatLitCI "process".toList cs
  let r ← eatWs1 r
  let r ← eatLitCI "page".toList r
  let r ← eatWs1 r
  let (a, r) ← eatDigits r
  let r ← eatWs1 r
  let r ← eatLitCI "of".toList r
  let r ← eatWs1 r
  let (b, _) ← eatDigits r
  pure (a, b)

/-- `re.search`: leftmost position whose suffix matches. -/
def searchFrom (m : List Char → Option (Nat × Nat)) : List Char → Option (Nat × Nat)
  | [] => m []
  | c :: cs =>
    match m (c :: cs) with
    | some x => some x
    | none => searchFrom m cs

/-- `re.search` for a pattern starting with `\b(\d+)`: the position must sit
at a word boundary (start of line or preceded by a non-word character). -/
def searchFromWB (m : List Char → Option (Nat × Nat)) :
    Option Char → List Char → Option (Nat × Nat)
  | prev, [] =>
    if (match prev with | none => true | some p => !(isWordCh p)) then m [] else none
  | prev, c :: cs =>
    let bOk : Bool := match prev with | none => true | some p => !(isWordCh p)
    match (if bOk then m (c :: cs) else none) with
    | some x => some x
    | none => searchFromWB m (some c) cs

/-- The ordered pattern list: first pattern that yields a match with
`total > 0` wins (`_extract_page_progress`: a match with `total = 0`
falls through to the next pattern). -/
def tryPats : List (List Char → Option (Nat × Nat)) → List Char → Option (Nat × Nat)
  | [], _ => none
  | p :: ps, l =>
    match p l with
    | some (c, t) => if t > 0 then some (c, t) else tryPats ps l
    | none => tryPats ps l

/-- `_extract_page_progress(line)`: extract `(cur, total)` from one log line. -/
def extract_page_progress (line : List Char) : Option (Nat × Nat) :=
  tryPats
    [ searchFrom matchP1At
    , searchFrom matchP2At
    , searchFromWB matchP3At none
    , searchFromWB matchP4At none
    , searchFrom matchP5At ]
    line

-- development sanity checks (claims' witnesses carry the real evidence)
example : extract_page_progress "Page 1/10".toList = some (1, 10) := by decide
example : extract_page_progress "GPL Ghostscript 10.0".toList = none := by decide
example : extract_page_progress "3 of 20 pages done".toList = some (3, 20) := by decide
example : extract_page_progress "processing page 7 of 9".toList = some (7, 9) := by decide

/-! ## Progress fraction and per-line processing (`_run_cli_streaming`, lines 370-386)

Python computes `cur / max(total, 1)` in floating point; the embedding uses
exact rationals, which agrees on the magnitudes involved and keeps order
properties meaningful. -/

/-- `max(0.0, min(cur / max(total, 1), 1.0))`. -/
def pageFrac (cur total : Nat) : ℚ :=
  max 0 (min ((cur : ℚ) / ((max total 1 : ℕ) : ℚ)) 1)

/-- Messages handed to `_emit_progress` from the streaming loop. -/
inductive Msg where
  | page (cur total : Nat)
  | raw (line : List Char)
  | heartbeat (idleSec : Nat)
  deriving DecidableEq

/-- Processing of one received log line (lines 370-386): a page marker
updates `last_frac` and reports the new fraction; any other line is
forwarded with the last known fraction repeated.  Returns the emitted
event and the new `last_frac`. -/
def lineStep (lastFrac : ℚ) (l : List Char) : (Msg × ℚ) × ℚ :=
  match extract_page_progress l with
  | some (c, t) =>
    let f := pageFrac c t
    ((Msg.page c t, f), f)
  | none => ((Msg.raw l, lastFrac), lastFrac)

/-- Fold of `lineStep` over a line sequence: the events emitted for the
lines and the final `last_frac`. -/
def processLines (lastFrac : ℚ) : List (List Char) → List (Msg × ℚ) × ℚ
  | [] => ([], lastFrac)
  | l :: ls =>
    let (e, f') := lineStep lastFrac l
    let (es, fin) := processLines f' ls
    (e :: es, fin)

/-- The fractions delivered to the progress callback for a line sequence. -/
def emittedFracs (lastFrac : ℚ) (ls : List (List Char)) : List ℚ :=
  ((processLines lastFrac ls).1).map (·.2)

/-! ## Process supervisor loop (`_run_cli_streaming`, lines 357-414)

Each loop iteration observes: a line from the merged stdout/stderr stream
(or `none` for an empty non-blocking read), the current wall clock, and —
consulted only on an empty read — `proc.poll()` (the exit code once the
process has exited).  The model is driven by a finite trace of such
observations; the real loop only leaves via the `break` (process exited)
or the timeout `raise`, so a trace that runs out while the process still
runs is reported as `ranOut` and only the `finally` cleanup applies to it.

Exceptions from the caller's progress callback never escape
`_emit_progress` (it swallows everything), so they create no exit path of
their own; any other abrupt exit is covered by the `finally` modelled in
`runCliModel`. -/

structure Obs where
  line : Option (List Char)
  now : Nat
  exitCode : Option Int
  deriving DecidableEq

/-- Outcome of the streaming runner: normal return, the `RuntimeError`
carrying the last 80 captured lines on a non-zero exit, the
`TimeoutError`, or an exhausted observation trace. -/
inductive CliOutcome where
  | ok
  | exitErr (rc : Int) (tail : List (List Char))
  | timedOut
  | ranOut
  deriving DecidableEq

/-- What happened to the child process. -/
inductive ChildFate where
  | exited (rc : Int)
  | killedOnTimeout
  | killedInCleanup
  | stillRunning
  deriving DecidableEq

structure LoopSt where
  lastOut : Nat
  lastFrac : ℚ
  seen : List (List Char)
  events : List (Msg × ℚ)
  deriving DecidableEq

def initSt (start : Nat) : LoopSt :=
  { lastOut := start, lastFrac := 0, seen := [], events := [] }

/-- The `while True` loop body of `_run_cli_streaming`, plus the `rc != 0`
check that follows the `break`. -/
def cliLoop (hardT start : Nat) : LoopSt → List Obs → CliOutcome × ChildFate × LoopSt
  | st, [] => (CliOutcome.ranOut, ChildFate.stillRunning, st)
  | st, o :: rest =>
    match o.line with
    | some l =>
      let (e, f') := lineStep st.lastFrac l
      cliLoop hardT start
        { lastOut := o.now, lastFrac := f',
          seen := st.seen ++ [l], events := st.events ++ [e] } rest
    | none =>
      match o.exitCode with
      | some rc =>
        (if rc ≠ 0 then CliOutcome.exitErr rc (st.seen.drop (st.seen.length - 80))
         else CliOutcome.ok,
         ChildFate.exited rc, st)
      | none =>
        let st' :=
          if o.now - st.lastOut > 180 then
            { st with events := st.events ++ [(Msg.heartbeat (o.now - st.lastOut), st.lastFrac)] }
          else st
        if o.now - start > hardT then
          (CliOutcome.timedOut, ChildFate.killedOnTimeout, st')
        else cliLoop hardT start st' rest

/-- The `finally` block of `_run_cli_streaming`: kill the child if (and
only if) `proc.poll()` still reports it running. -/
def cleanupFate : ChildFate → ChildFate
  | ChildFate.stillRunning => ChildFate.killedInCleanup
  | f => f

/-- `_run_cli_streaming` around the loop: the loop followed by the
`finally` cleanup. -/
def runCliModel (hardT start : Nat) (st : LoopSt) (trace : List Obs) :
    CliOutcome × ChildFate × LoopSt :=
  let r := cliLoop hardT start st trace
  (r.1, cleanupFate r.2.1, r.2.2)

/-! ## Language availability resolver (`_pick_lang`)

`_tesseract_has_lang` shells out to `tesseract --list-langs`; it is
modelled as an oracle `hasLang : List Char → Bool` (it returns `False` on
any subprocess failure, so it is total).  Language specs are `List Char`. -/

/-- Python `str.split("+")`: split on every `+`, keeping empty pieces. -/
def splitPlus : List Char → List (List Char)
  | [] => [[]]
  | c :: rest =>
    if c = '+' then [] :: splitPlus rest
    else
      match splitPlus rest with
      | h :: t => (c :: h) :: t
      | [] => [[c]]

/-- Python `str.strip()` (ASCII whitespace fragment). -/
def trimCh (l : List Char) : List Char :=
  ((l.dropWhile isSpaceCh).reverse.dropWhile isSpaceCh).reverse

/-- `"+".join(...)`. -/
def joinPlus (ls : List (List Char)) : List Char := List.intercalate ['+'] ls

/-- `[p.strip() for p in requested.split("+") if p.strip()]`. -/
def reqTokens (requested : List Char) : List (List Char) :=
  ((splitPlus requested).map trimCh).filter (fun p => !p.isEmpty)

/-- The baseline language literal `"eng"`. -/
def engSpec : List Char := ['e', 'n', 'g']

/-- `_pick_lang(requested)`. -/
def pick_lang (hasLang : List Char → Bool) (requested : List Char) : List Char :=
  let parts := reqTokens requested
  let avail := parts.filter hasLang
  if !avail.isEmpty then joinPlus avail
  else if hasLang engSpec then engSpec
  else parts.headD engSpec

-- development sanity checks
example : pick_lang (fun l => l = "eng".toList || l = "jpn".toList) "jpn+eng".toList
    = "jpn+eng".toList := by decide
example : pick_lang (fun l => l = "eng".toList) " jpn + eng ".toList = "eng".toList := by decide
example : pick_lang (fun _ => false) "jpn+deu".toList = "jpn".toList := by decide
example : pick_lang (fun _ => false) "".toList = "eng".toList := by decide

/-! ## Fallback controller (`run_ocr`)

The two backends are oracles: `pyResult` is the outcome of one
`_run_python` call, `cliResult lang` the outcome of one
`_run_cli_streaming` call with language `lang` (all other arguments of a
job are fixed across its attempts, so the language is the only varying
key).  Errors are abstract tokens that propagate unchanged. -/

structure OcrEnv where
  hasLang : List Char → Bool
  pyResult : Except Nat Unit
  cliResult : List Char → Except Nat Unit

/-- One backend invocation performed by `run_ocr`. -/
inductive Attempt where
  | py (lang : List Char)
  | cli (lang : List Char)
  deriving DecidableEq

/-- `run_ocr` (lines 143-249): the attempted backend invocations in order,
and the outcome delivered to the caller (`ok` = normal return, `error` =
the exception that propagates). -/
def run_ocr (env : OcrEnv) (lang : List Char) (hasCb : Bool) :
    List Attempt × Except Nat Unit :=
  let le := pick_lang env.hasLang lang
  if hasCb then
    match env.cliResult le with
    | Except.ok _ => ([Attempt.cli le], Except.ok ())
    | Except.error e =>
      if le ≠ engSpec ∧ env.hasLang engSpec then
        ([Attempt.cli le, Attempt.cli engSpec], env.cliResult engSpec)
      else
        ([Attempt.cli le], Except.error e)
  else
    match env.pyResult with
    | Except.ok _ => ([Attempt.py le], Except.ok ())
    | Except.error _ => ([Attempt.py le, Attempt.cli le], env.cliResult le)

/-! ## Sidecar state store (`lib/pdf/sidecar.py`)

JSON objects are modelled as insertion-ordered association lists with
unique keys, mirroring Python `dict` semantics (`get`, `in`, assignment
replaces in place or appends at the end). -/

inductive JVal where
  | jstr (s : String)
  | jnum (n : Int)
  | jbool (b : Bool)
  | jnull
  deriving DecidableEq

abbrev JDict := List (String × JVal)

/-- `data.get(k)` / `data[k]` lookup. -/
def dget : JDict → String → Option JVal
  | [], _ => none
  | (k', v) :: rest, k => if k' = k then some v else dget rest k

/-- `k in data`. -/
def dcontains (d : JDict) (k : String) : Bool := (dget d k).isSome

/-- `data[k] = v`: replace in place, else append. -/
def dset : JDict → String → JVal → JDict
  | [], k, v => [(k, v)]
  | (k', v') :: rest, k, v =>
    if k' = k then (k', v) :: rest else (k', v') :: dset rest k v

/-- `normalize_json_text`: smart quotation characters to ASCII.  The three
`str.replace` calls are single-character substitutions (U+201C and U+201D
to `"`, U+2019 to `'`). -/
def fixQuote (c : Char) : Char :=
  if c = Char.ofNat 8220 ∨ c = Char.ofNat 8221 then Char.ofNat 34
  else if c = Char.ofNat 8217 then Char.ofNat 39
  else c

def normalize_json_text (s : String) : String := String.mk (s.data.map fixQuote)

/-- What reading the sidecar file yields: no file, a file whose bytes fail
to decode (Python `Path.read_text(encoding="utf-8")` raises there), or
decoded text. -/
inductive FileRead where
  | absent
  | undecodable
  | content (s : String)
  deriving DecidableEq

/-- `load_sidecar_dict` (lines 20-31).  `parse` models `json.loads`
restricted to object results (`none` = any parse failure).  The `error`
result is an exception propagating to the caller. -/
def load_sidecar_dict (parse : String → Option JDict) :
    FileRead → Except Unit (Option JDict)
  | FileRead.absent => Except.ok none
  | FileRead.undecodable => Except.error ()
  | FileRead.content s =>
    match parse s with
    | some d => Except.ok (some d)
    | none =>
      match parse (normalize_json_text s) with
      | some d => Except.ok (some d)
      | none => Except.ok none

/-- `update_sidecar_ocr` (lines 75-95), pure core: takes the result of
`load_sidecar_dict(sc)` (already a dict or `None`), the current timestamp
string, and the new state.  Returns the dict written back and the
`(changed?, label)` pair returned to the caller.  The local `changed`
variable of the source is computed but never returned; the returned flag
is the literal `True`. -/
def update_sidecar_ocr (loaded : Option JDict) (now : String) (newState : String) :
    JDict × (Bool × String) :=
  let d0 := loaded.getD []
  let d1 := if !dcontains d0 "type" then dset d0 "type" (JVal.jstr "image_pdf") else d0
  let d2 := if !dcontains d1 "created_at" then dset d1 "created_at" (JVal.jstr now) else d1
  let d3 := if dget d2 "ocr" ≠ some (JVal.jstr newState) then dset d2 "ocr" (JVal.jstr newState) else d2
  (d3, (true, if !dcontains d3 "ocr" then "created" else "updated"))

/-! ## Classification pass (`pages/25_PDF整理（処理判定）.py`, lines 200-238)

The loop works on `list_pdfs` results, so every document name has suffix
`.pdf`; documents are identified by their stem.  The filesystem is an
oracle `exists?` over file names; `kind?` is the `quick_pdf_info` kind for
the document (`none` = the info call raised).  `*_skip` files were
removed when collecting targets and never reach this step. -/

/-- `is_ocr_name` for a listed `.pdf` file: the stem ends in `_ocr`. -/
def is_ocr_name (stem : List Char) : Bool := "_ocr".toList.isSuffixOf stem

/-- The `ocr` state chosen for a document (lines 201-209): an `_ocr`-named
file gets `done`; otherwise `done` iff the partner `<stem>_ocr.pdf`
exists (`dest_ocr_path`). -/
def ocr_state_for (fsHas : List Char → Bool) (stem : List Char) : String :=
  if is_ocr_name stem then "done"
  else if fsHas (stem ++ "_ocr.pdf".toList) then "done"
  else "unprocessed"

/-- One non-dry-run iteration of the scan loop for one document, composed
with `write_sidecar_if_needed` (lines 134-161): the sidecar record written
for the document, or `none` when nothing is written (info failure,
non-image kind, or existing sidecar).  `now` is the `created_at`
timestamp; the write itself is assumed to succeed. -/
def scan_step (fsHas : List Char → Bool) (kind? : Option String) (now : String)
    (stem : List Char) : Option JDict :=
  match kind? with
  | none => none
  | some kind =>
    if kind ≠ "画像PDF" then none
    else if fsHas (stem ++ "_side.json".toList) then none
    else some [("type", JVal.jstr "image_pdf"),
               ("created_at", JVal.jstr now),
               ("ocr", JVal.jstr (ocr_state_for fsHas stem))]

/-! ## `quick_pdf_info` (`lib/pdf/info.py`, lines 107-131)

`fitz.open` and per-page text extraction are oracles: `none` for
`fitz.open` means it raised; a page's entry is the length of its stripped
extracted text, `none` when `load_page`/`get_text` raised (counted as a
non-text page by the inner `except: pass`).  The float ratio and
threshold are exact rationals. -/

structure PdfDoc where
  pageCount : Nat
  pageTextLen : Nat → Option Nat

structure InfoRec where
  pages : Nat
  kind : String
  text_ratio : ℚ
  checked : Nat
  deriving DecidableEq

def quick_pdf_info (openRes : Option PdfDoc) (samplePages : Nat) (thr : ℚ) : InfoRec :=
  match openRes with
  | none => { pages := 0, kind := "画像PDF", text_ratio := 0, checked := 0 }
  | some d =>
    let n := d.pageCount
    let check := min samplePages (max n 1)
    let textPages := (List.range check).countP
      (fun i => match d.pageTextLen i with | some len => len ≥ 20 | none => false)
    let r : ℚ := (textPages : ℚ) / ((max check 1 : ℕ) : ℚ)
    { pages := n,
      kind := if r ≥ thr then "テキストPDF" else "画像PDF",
      text_ratio := r,
      checked := check }

/-! ## Dictionary lemmas -/

theorem dget_dset_self (d : JDict) (k : String) (v : JVal) :
    dget (dset d k v) k = some v := by
  induction d with
  | nil => simp [dset, dget]
  | cons p rest ih =>
    obtain ⟨k', v'⟩ := p
    by_cases h : k' = k
    · simp [dset, dget, h]
    · simp [dset, dget, h, ih]

theorem dget_dset_other (d : JDict) (k k' : String) (v : JVal) (h : k' ≠ k) :
    dget (dset d k v) k' = dget d k' := by
  induction d with
  | nil => simp [dset, dget, Ne.symm h]
  | cons p rest ih =>
    obtain ⟨k₀, v₀⟩ := p
    by_cases h0 : k₀ = k
    · subst h0
      simp only [dset, if_pos rfl, dget]
      rw [if_neg (fun e => h e.symm), if_neg (fun e => h e.symm)]
    · simp only [dset, if_neg h0, dget]
      by_cases h1 : k₀ = k'
      · simp [h1]
      · simp [h1, ih]

theorem dcontains_dset_self (d : JDict) (k : String) (v : JVal) :
    dcontains (dset d k v) k = true := by
  simp [dcontains, dget_dset_self]

theorem dcontains_of_dget (d : JDict) (k : String) (v : JVal) (h : dget d k = some v) :
    dcontains d k = true := by
  simp [dcontains, h]

/-- The guarded default-fill step `if k0 not in d: d[k0] = v0` does not
change any key already present. -/
theorem dget_fill_of_contains (d : JDict) (k0 : String) (v0 : JVal) (k : String)
    (hk : dcontains d k = true) :
    dget (if !dcontains d k0 then dset d k0 v0 else d) k = dget d k := by
  by_cases h : dcontains d k0
  · simp [h]
  · have hne : k ≠ k0 := by
      intro e
      subst e
      rw [hk] at h
      exact h rfl
    simp [eq_false_of_ne_true h, dget_dset_other d k0 k v0 hne]

theorem dcontains_fill_of_contains (d : JDict) (k0 : String) (v0 : JVal) (k : String)
    (hk : dcontains d k = true) :
    dcontains (if !dcontains d k0 then dset d k0 v0 else d) k = true := by
  obtain ⟨v, hv⟩ := Option.isSome_iff_exists.mp hk
  exact dcontains_of_dget _ k v (by rw [dget_fill_of_contains d k0 v0 k hk]; exact hv)

theorem dget_fill_of_absent (d : JDict) (k0 : String) (v0 : JVal)
    (h : dcontains d k0 = false) :
    dget (if !dcontains d k0 then dset d k0 v0 else d) k0 = some v0 := by
  simp [h, dget_dset_self]

/-- The default-fill step for key `k0` leaves every other key untouched. -/
theorem dget_fill_of_ne (d : JDict) (k0 : String) (v0 : JVal) (k : String)
    (h : k ≠ k0) :
    dget (if !dcontains d k0 then dset d k0 v0 else d) k = dget d k := by
  by_cases hc : dcontains d k0
  · simp [hc]
  · simp [eq_false_of_ne_true hc, dget_dset_other d k0 k v0 h]

theorem dcontains_fill_of_ne (d : JDict) (k0 : String) (v0 : JVal) (k : String)
    (h : k ≠ k0) :
    dcontains (if !dcontains d k0 then dset d k0 v0 else d) k = dcontains d k := by
  show (dget (if !dcontains d k0 then dset d k0 v0 else d) k).isSome = (dget d k).isSome
  rw [dget_fill_of_ne d k0 v0 k h]

theorem dcontains_dset_of_contains (d : JDict) (k0 : String) (v : JVal) (k : String)
    (hk : dcontains d k = true) : dcontains (dset d k0 v) k = true := by
  by_cases h : k = k0
  · subst h
    exact dcontains_dset_self d k v
  · obtain ⟨v', hv⟩ := Option.isSome_iff_exists.mp hk
    exact dcontains_of_dget _ k v' (by rw [dget_dset_other d k0 k v h]; exact hv)

/-! ## C6 — sidecar merge frame property -/

/-- C6: updating the `ocr` state of an existing sidecar record keeps every
other field (including unrecognized extra fields) at its previous value,
sets `ocr` to the new state, fills a missing `type`/`created_at` with its
default, and removes no existing field. -/
theorem update_sidecar_preserves_fields (d : JDict) (now st : String) :
    (∀ k, k ≠ "ocr" → dcontains d k = true →
      dget (update_sidecar_ocr (some d) now st).1 k = dget d k)
    ∧ dget (update_sidecar_ocr (some d) now st).1 "ocr" = some (JVal.jstr st)
    ∧ (dcontains d "type" = false →
      dget (update_sidecar_ocr (some d) now st).1 "type" = some (JVal.jstr "image_pdf"))
    ∧ (dcontains d "created_at" = false →
      dget (update_sidecar_ocr (some d) now st).1 "created_at" = some (JVal.jstr now))
    ∧ (∀ k, dcontains d k = true →
      dcontains (update_sidecar_ocr (some d) now st).1 k = true) := by
  have hd0 : (some d).getD [] = d := rfl
  set d1 := if !dcontains d "type" then dset d "type" (JVal.jstr "image_pdf") else d with hd1
  set d2 := if !dcontains d1 "created_at" then dset d1 "created_at" (JVal.jstr now) else d1 with hd2
  set d3 := if dget d2 "ocr" ≠ some (JVal.jstr st) then dset d2 "ocr" (JVal.jstr st) else d2 with hd3
  have hfst : (update_sidecar_ocr (some d) now st).1 = d3 := by
    simp only [update_sidecar_ocr, hd0, ← hd1, ← hd2, ← hd3]
  have hc1 : ∀ k, dcontains d k = true → dcontains d1 k = true := fun k hk =>
    hd1 ▸ dcontains_fill_of_contains d "type" _ k hk
  have hc2 : ∀ k, dcontains d k = true → dcontains d2 k = true := fun k hk =>
    hd2 ▸ dcontains_fill_of_contains d1 "created_at" _ k (hc1 k hk)
  have hg2 : ∀ k, dcontains d k = true → dget d2 k = dget d k := by
    intro k hk
    rw [hd2, dget_fill_of_contains d1 "created_at" _ k (hc1 k hk),
        hd1, dget_fill_of_contains d "type" _ k hk]
  have hg3 : ∀ k, k ≠ "ocr" → dget d3 k = dget d2 k := by
    intro k hk
    rw [hd3]
    by_cases h : dget d2 "ocr" ≠ some (JVal.jstr st)
    · simp only [if_pos h]
      exact dget_dset_other d2 "ocr" k _ hk
    · simp only [if_neg h]
  have hocr : dget d3 "ocr" = some (JVal.jstr st) := by
    rw [hd3]
    by_cases h : dget d2 "ocr" ≠ some (JVal.jstr st)
    · simp only [if_pos h]
      exact dget_dset_self d2 "ocr" _
    · simp only [if_neg h]
      exact not_not.mp h
  refine ⟨?_, ?_, ?_, ?_, ?_⟩
  · intro k hk hmem
    rw [hfst, hg3 k hk, hg2 k hmem]
  · rw [hfst]
    exact hocr
  · intro habs
    have hk : ("type" : String) ≠ "ocr" := by decide
    rw [hfst, hg3 _ hk, hd2,
        dget_fill_of_ne d1 "created_at" _ "type" (by decide),
        hd1, dget_fill_of_absent d "type" _ habs]
  · intro habs
    have hk : ("created_at" : String) ≠ "ocr" := by decide
    have habs1 : dcontains d1 "created_at" = false := by
      rw [hd1, dcontains_fill_of_ne d "type" _ "created_at" (by decide)]
      exact habs
    rw [hfst, hg3 _ hk, hd2, dget_fill_of_absent d1 "created_at" _ habs1]
  · intro k hk
    rw [hfst, hd3]
    by_cases h : dget d2 "ocr" ≠ some (JVal.jstr st)
    · simp only [if_pos h]
      exact dcontains_dset_of_contains d2 "ocr" _ k (hc2 k hk)
    · simp only [if_neg h]
      exact hc2 k hk

/-- Witness for the C6 theorem at a record with an unrecognized extra
field. -/
theorem update_sidecar_preserves_fields_witness :
    dget (update_sidecar_ocr
      (some [("type", JVal.jstr "image_pdf"),
             ("created_at", JVal.jstr "2025-01-01T00:00:00+09:00"),
             ("ocr", JVal.jstr "unprocessed"),
             ("note", JVal.jstr "keep me")]) "2025-10-07T00:00:00+09:00" "done").1 "note"
      = some (JVal.jstr "keep me")
    ∧ dget (update_sidecar_ocr
      (some [("type", JVal.jstr "image_pdf"),
             ("created_at", JVal.jstr "2025-01-01T00:00:00+09:00"),
             ("ocr", JVal.jstr "unprocessed"),
             ("note", JVal.jstr "keep me")]) "2025-10-07T00:00:00+09:00" "done").1 "ocr"
      = some (JVal.jstr "done") := by
  have h := update_sidecar_preserves_fields
    [("type", JVal.jstr "image_pdf"),
     ("created_at", JVal.jstr "2025-01-01T00:00:00+09:00"),
     ("ocr", JVal.jstr "unprocessed"),
     ("note", JVal.jstr "keep me")] "2025-10-07T00:00:00+09:00" "done"
  exact ⟨(h.1 "note" (by decide) (by decide)).trans (by decide), h.2.1⟩

/-! ## C7 — `update_sidecar_ocr` outcome labels -/

/-- The returned pair of `update_sidecar_ocr` is the same for every input:
the flag is the literal `True` and the label test `"ocr" not in data` runs
after `data["ocr"]` has been assigned, so `"created"` is unreachable. -/
theorem update_sidecar_ret_const (loaded : Option JDict) (now st : String) :
    (update_sidecar_ocr loaded now st).2 = (true, "updated") := by
  have key : ∀ d : JDict,
      dcontains (if dget d "ocr" ≠ some (JVal.jstr st)
                 then dset d "ocr" (JVal.jstr st) else d) "ocr" = true := by
    intro d
    by_cases h : dget d "ocr" ≠ some (JVal.jstr st)
    · rw [if_pos h]
      exact dcontains_dset_self d "ocr" _
    · rw [if_neg h]
      exact dcontains_of_dget d "ocr" _ (not_not.mp h)
  simp only [update_sidecar_ocr, key]
  rfl

/-- C7: for a document with no existing sidecar record, the state-update
operation still returns the label `"updated"` (and change-flag `True`),
although it synthesizes a fresh record — the `"created"` outcome promised
by the source docstring and the spec is unreachable, because the
`"ocr" not in data` test is evaluated after `data["ocr"]` was assigned. -/
theorem update_sidecar_created_label_bug :
    (update_sidecar_ocr none "2025-10-07T08:42:00+09:00" "done")
      = ([("type", JVal.jstr "image_pdf"),
          ("created_at", JVal.jstr "2025-10-07T08:42:00+09:00"),
          ("ocr", JVal.jstr "done")],
         (true, "updated")) := by decide

/-! ## C8 — sidecar read recovery -/

/-- C8 counterexample: the claim says the read operation never raises, but
`Path.read_text(encoding="utf-8")` sits outside every `try` block, so an
existing sidecar file whose bytes do not decode raises to the caller. -/
theorem load_sidecar_raises_on_undecodable :
    load_sidecar_dict (fun _ => none) FileRead.undecodable = Except.error () := rfl

/-- C8 (amended): for a missing file the read returns absent; for a file
whose text was decoded, a JSON parse failure is retried once after
smart-quote normalization and then gives absent, with no exception; only
reading/decoding the file itself can raise. -/
theorem load_sidecar_recovery (parse : String → Option JDict) (fr : FileRead) :
    (fr ≠ FileRead.undecodable → ∃ v, load_sidecar_dict parse fr = Except.ok v)
    ∧ load_sidecar_dict parse FileRead.absent = Except.ok none
    ∧ (∀ s, load_sidecar_dict parse (FileRead.content s)
        = Except.ok ((parse s).orElse fun _ => parse (normalize_json_text s))) := by
  have hcontent : ∀ s, load_sidecar_dict parse (FileRead.content s)
      = Except.ok ((parse s).orElse fun _ => parse (normalize_json_text s)) := by
    intro s
    cases hp : parse s with
    | some d => simp [load_sidecar_dict, hp, Option.orElse]
    | none =>
      cases hq : parse (normalize_json_text s) <;>
        simp [load_sidecar_dict, hp, hq, Option.orElse]
  refine ⟨?_, rfl, hcontent⟩
  intro h
  cases fr with
  | absent => exact ⟨none, rfl⟩
  | undecodable => exact absurd rfl h
  | content s => exact ⟨_, hcontent s⟩

/-- Witness for the C8 amended theorem. -/
theorem load_sidecar_recovery_witness :
    FileRead.content "not json" ≠ FileRead.undecodable
    ∧ (∃ v, load_sidecar_dict (fun _ => none) (FileRead.content "not json") = Except.ok v)
    ∧ load_sidecar_dict (fun _ => none) FileRead.absent = Except.ok none :=
  ⟨by decide,
   (load_sidecar_recovery (fun _ => none) (FileRead.content "not json")).1 (by decide),
   (load_sidecar_recovery (fun _ => none) FileRead.absent).2.1⟩

/-! ## C10 — `quick_pdf_info` on an unopenable document -/

/-- C10: when `fitz.open` raises, `quick_pdf_info` returns the fixed
record (0 pages, image-class kind, ratio 0, 0 checked pages) instead of
propagating the error; no distinct unreadable outcome exists in its
return type. -/
theorem quick_pdf_info_unreadable (samplePages : Nat) (thr : ℚ) :
    quick_pdf_info none samplePages thr
      = { pages := 0, kind := "画像PDF", text_ratio := 0, checked := 0 } := rfl

/-! ## C5 — first-classification sidecar state -/

/-- C5 counterexample: a document that is itself named `*_ocr.pdf`,
classified image-class, with no sidecar and with no derived output
`<stem>_ocr.pdf` (here `sample_ocr_ocr.pdf`), receives state `done`,
where the claim requires `unprocessed`. -/
theorem scan_ocr_named_counterexample :
    scan_step (fun _ => false) (some "画像PDF") "2025-10-07T00:00:00+00:00" "sample_ocr".toList
      = some [("type", JVal.jstr "image_pdf"),
              ("created_at", JVal.jstr "2025-10-07T00:00:00+00:00"),
              ("ocr", JVal.jstr "done")]
    ∧ (fun (_ : List Char) => false) ("sample_ocr".toList ++ "_ocr.pdf".toList) = false :=
  ⟨by decide, rfl⟩

/-- C5 (amended): for an image-class document with no existing sidecar
whose filename does not itself carry the `_ocr` suffix, the created
record has state `done` exactly when `<stem>_ocr.pdf` exists and
`unprocessed` otherwise; a document whose own name ends in `_ocr`
receives `done` unconditionally. -/
theorem classify_sidecar_state_amended (fsHas : List Char → Bool) (now : String) :
    (∀ stem, is_ocr_name stem = false → fsHas (stem ++ "_side.json".toList) = false →
      scan_step fsHas (some "画像PDF") now stem
        = some [("type", JVal.jstr "image_pdf"), ("created_at", JVal.jstr now),
                ("ocr", JVal.jstr (if fsHas (stem ++ "_ocr.pdf".toList)
                                   then "done" else "unprocessed"))])
    ∧ (∀ stem, is_ocr_name stem = true → fsHas (stem ++ "_side.json".toList) = false →
      scan_step fsHas (some "画像PDF") now stem
        = some [("type", JVal.jstr "image_pdf"), ("created_at", JVal.jstr now),
                ("ocr", JVal.jstr "done")]) := by
  constructor
  · intro stem hocr hsc
    have hsc' : fsHas (stem ++ ['_', 's', 'i', 'd', 'e', '.', 'j', 's', 'o', 'n']) = false := hsc
    simp [scan_step, hsc', ocr_state_for, hocr]
  · intro stem hocr hsc
    have hsc' : fsHas (stem ++ ['_', 's', 'i', 'd', 'e', '.', 'j', 's', 'o', 'n']) = false := hsc
    simp [scan_step, hsc', ocr_state_for, hocr]

/-- Witness for the C5 amended theorem: with only `a_ocr.pdf` on disk,
stem `a` gets `done` and stem `b` gets `unprocessed`. -/
theorem classify_sidecar_state_witness :
    scan_step (fun l => l == "a_ocr.pdf".toList) (some "画像PDF") "T0" "a".toList
      = some [("type", JVal.jstr "image_pdf"), ("created_at", JVal.jstr "T0"),
              ("ocr", JVal.jstr "done")]
    ∧ scan_step (fun l => l == "a_ocr.pdf".toList) (some "画像PDF") "T0" "b".toList
      = some [("type", JVal.jstr "image_pdf"), ("created_at", JVal.jstr "T0"),
              ("ocr", JVal.jstr "unprocessed")] := by
  have h := classify_sidecar_state_amended (fun l => l == "a_ocr.pdf".toList) "T0"
  exact ⟨(h.1 "a".toList (by decide) (by decide)).trans (by decide),
         (h.1 "b".toList (by decide) (by decide)).trans (by decide)⟩

/-! ## C4 — language narrowing -/

/-- C4: `_pick_lang` keeps exactly the installed subset of the requested
tokens, joined in original request order (the kept list is a sublist of
the request's token list and every kept token is installed); when no
requested token is installed it returns the baseline `eng` if installed,
else the first requested token unchanged.  Totality (never raises) is
structural: the function is defined for every input. -/
theorem pick_lang_narrowing (hasLang : List Char → Bool) (requested : List Char) :
    ((reqTokens requested).filter hasLang ≠ [] →
      pick_lang hasLang requested = joinPlus ((reqTokens requested).filter hasLang)
      ∧ ((reqTokens requested).filter hasLang).Sublist (reqTokens requested)
      ∧ ∀ t ∈ (reqTokens requested).filter hasLang, hasLang t = true)
    ∧ ((reqTokens requested).filter hasLang = [] → hasLang engSpec = true →
      pick_lang hasLang requested = engSpec)
    ∧ (∀ t0 ts, (reqTokens requested).filter hasLang = [] → hasLang engSpec = false →
      reqTokens requested = t0 :: ts → pick_lang hasLang requested = t0) := by
  refine ⟨?_, ?_, ?_⟩
  · intro hne
    refine ⟨?_, List.filter_sublist _, fun t ht => (List.mem_filter.mp ht).2⟩
    simp only [pick_lang]
    rw [if_pos (by simp [List.isEmpty_iff, hne])]
  · intro hnil heng
    simp only [pick_lang]
    rw [if_neg (by simp [List.isEmpty_iff, hnil]), if_pos heng]
  · intro t0 ts hnil heng htok
    simp only [pick_lang]
    rw [if_neg (by simp [List.isEmpty_iff, hnil]), if_neg (by simp [heng]), htok]
    rfl

/-- Witness for C4: with `jpn` and `eng` installed, `jpn+deu` narrows to
`jpn`; with only `eng` installed it falls back to `eng`; with nothing
installed it returns the first requested token. -/
theorem pick_lang_narrowing_witness :
    pick_lang (fun l => l == "jpn".toList || l == engSpec) "jpn+deu".toList = "jpn".toList
    ∧ pick_lang (fun l => l == engSpec) "jpn+deu".toList = engSpec
    ∧ pick_lang (fun _ => false) "jpn+deu".toList = "jpn".toList := by
  refine ⟨?_, ?_, ?_⟩
  · exact (((pick_lang_narrowing (fun l => l == "jpn".toList || l == engSpec)
      "jpn+deu".toList).1 (by decide)).1).trans (by decide)
  · exact (pick_lang_narrowing (fun l => l == engSpec)
      "jpn+deu".toList).2.1 (by decide) (by decide)
  · exact (pick_lang_narrowing (fun _ => false) "jpn+deu".toList).2.2
      "jpn".toList ["deu".toList] (by decide) rfl (by decide)

/-! ## C1 — backend selection and retry policy of `run_ocr` -/

/-- C1: with a progress callback the CLI backend is tried first; on its
failure, if the effective language is not already `eng` and `eng` is
installed, exactly one retry with `eng` runs and its outcome (success or
error) is what the caller sees, otherwise the original error propagates.
Without a callback the Python backend is tried first and on failure the
CLI backend runs once with the original narrowed language; no attempt in
this branch ever uses a language other than the narrowed one (no
automatic English-only retry). -/
theorem run_ocr_backend_policy (env : OcrEnv) (lang : List Char) :
    (env.cliResult (pick_lang env.hasLang lang) = Except.ok () →
      run_ocr env lang true = ([Attempt.cli (pick_lang env.hasLang lang)], Except.ok ()))
    ∧ (∀ e, env.cliResult (pick_lang env.hasLang lang) = Except.error e →
      pick_lang env.hasLang lang ≠ engSpec → env.hasLang engSpec = true →
      run_ocr env lang true
        = ([Attempt.cli (pick_lang env.hasLang lang), Attempt.cli engSpec],
           env.cliResult engSpec))
    ∧ (∀ e, env.cliResult (pick_lang env.hasLang lang) = Except.error e →
      (pick_lang env.hasLang lang = engSpec ∨ env.hasLang engSpec = false) →
      run_ocr env lang true = ([Attempt.cli (pick_lang env.hasLang lang)], Except.error e))
    ∧ (env.pyResult = Except.ok () →
      run_ocr env lang false = ([Attempt.py (pick_lang env.hasLang lang)], Except.ok ()))
    ∧ (∀ e, env.pyResult = Except.error e →
      run_ocr env lang false
        = ([Attempt.py (pick_lang env.hasLang lang),
            Attempt.cli (pick_lang env.hasLang lang)],
           env.cliResult (pick_lang env.hasLang lang)))
    ∧ (∀ a ∈ (run_ocr env lang false).1,
      a = Attempt.py (pick_lang env.hasLang lang)
      ∨ a = Attempt.cli (pick_lang env.hasLang lang)) := by
  refine ⟨?_, ?_, ?_, ?_, ?_, ?_⟩
  · intro h
    simp [run_ocr, h]
  · intro e he hne heng
    simp [run_ocr, he, hne, heng]
  · intro e he hcond
    rcases hcond with h | h
    · rw [h] at he
      simp [run_ocr, he, h]
    · simp [run_ocr, he, h]
  · intro h
    simp [run_ocr, h]
  · intro e he
    simp [run_ocr, he]
  · cases hp : env.pyResult with
    | ok u =>
      simp [run_ocr, hp]
    | error e =>
      intro a ha
      simp [run_ocr, hp] at ha
      rcases ha with h | h
      · exact Or.inl h
      · exact Or.inr h

instance : DecidableEq (Except Nat Unit) := fun a b =>
  match a, b with
  | Except.ok x, Except.ok y => isTrue (by cases x; cases y; rfl)
  | Except.ok _, Except.error _ => isFalse (by simp)
  | Except.error _, Except.ok _ => isFalse (by simp)
  | Except.error x, Except.error y =>
    if h : x = y then isTrue (by rw [h]) else isFalse (by simp [h])

/-- Witness for C1: a job with language `jpn+eng` (both installed), whose
CLI run with the narrowed spec fails but whose `eng` retry succeeds, and
whose Python run fails so the no-callback branch falls back to one CLI
run with the narrowed spec. -/
theorem run_ocr_backend_policy_witness :
    run_ocr
      { hasLang := fun l => l == "jpn".toList || l == engSpec,
        pyResult := Except.error 5,
        cliResult := fun l => if l == "jpn+eng".toList then Except.error 3 else Except.ok () }
      "jpn+eng".toList true
      = ([Attempt.cli "jpn+eng".toList, Attempt.cli engSpec], Except.ok ())
    ∧ run_ocr
      { hasLang := fun l => l == "jpn".toList || l == engSpec,
        pyResult := Except.error 5,
        cliResult := fun l => if l == "jpn+eng".toList then Except.error 3 else Except.ok () }
      "jpn+eng".toList false
      = ([Attempt.py "jpn+eng".toList, Attempt.cli "jpn+eng".toList], Except.error 3) := by
  have h := run_ocr_backend_policy
    { hasLang := fun l => l == "jpn".toList || l == engSpec,
      pyResult := Except.error 5,
      cliResult := fun l => if l == "jpn+eng".toList then Except.error 3 else Except.ok () }
    "jpn+eng".toList
  exact ⟨(h.2.1 3 (by decide) (by decide) (by decide)).trans (by decide),
         (h.2.2.2.2.1 5 (by decide)).trans (by decide)⟩

/-! ## C2 / C3 — supervisor timeout and kill guarantees -/

/-- How each loop outcome determines the child's fate: a normal return
(`ok` or `exitErr`) happens only after `poll()` reported an exit, the
timeout raise happens only after `proc.kill()`, and only an exhausted
trace leaves the child running (for the `finally` to clean up). -/
theorem cliLoop_fate_char (hardT start : Nat) :
    ∀ (trace : List Obs) (st : LoopSt),
      ((cliLoop hardT start st trace).1 = CliOutcome.ok →
        (cliLoop hardT start st trace).2.1 = ChildFate.exited 0)
      ∧ (∀ rc t, (cliLoop hardT start st trace).1 = CliOutcome.exitErr rc t →
        (cliLoop hardT start st trace).2.1 = ChildFate.exited rc)
      ∧ ((cliLoop hardT start st trace).1 = CliOutcome.timedOut →
        (cliLoop hardT start st trace).2.1 = ChildFate.killedOnTimeout)
      ∧ ((cliLoop hardT start st trace).1 = CliOutcome.ranOut →
        (cliLoop hardT start st trace).2.1 = ChildFate.stillRunning) := by
  intro trace
  induction trace with
  | nil =>
    intro st
    refine ⟨?_, ?_, ?_, ?_⟩ <;> simp [cliLoop]
  | cons o rest ih =>
    intro st
    cases hl : o.line with
    | some l =>
      simpa [cliLoop, hl] using ih _
    | none =>
      cases he : o.exitCode with
      | some rc =>
        by_cases hrc : rc = 0
        · subst hrc
          refine ⟨?_, ?_, ?_, ?_⟩ <;> simp [cliLoop, hl, he]
        · refine ⟨?_, ?_, ?_, ?_⟩ <;> simp [cliLoop, hl, he, hrc]
      | none =>
        by_cases ht : o.now - start > hardT
        · refine ⟨?_, ?_, ?_, ?_⟩ <;> simp [cliLoop, hl, he, ht]
        · simpa [cliLoop, hl, he, ht] using ih _

/-- C3: on every exit path of the CLI runner the child process is no
longer running when control leaves: the `finally` cleanup never reports
`stillRunning`; a normal return means the process had already exited
(with the matching code), and the timeout error is raised only after the
kill. -/
theorem cli_child_killed_on_all_paths (hardT start : Nat) (trace : List Obs) :
    (runCliModel hardT start (initSt start) trace).2.1 ≠ ChildFate.stillRunning
    ∧ ((runCliModel hardT start (initSt start) trace).1 = CliOutcome.ok →
      (runCliModel hardT start (initSt start) trace).2.1 = ChildFate.exited 0)
    ∧ (∀ rc t, (runCliModel hardT start (initSt start) trace).1 = CliOutcome.exitErr rc t →
      (runCliModel hardT start (initSt start) trace).2.1 = ChildFate.exited rc)
    ∧ ((runCliModel hardT start (initSt start) trace).1 = CliOutcome.timedOut →
      (runCliModel hardT start (initSt start) trace).2.1 = ChildFate.killedOnTimeout)
    ∧ ((runCliModel hardT start (initSt start) trace).1 = CliOutcome.ranOut →
      (runCliModel hardT start (initSt start) trace).2.1 = ChildFate.killedInCleanup) := by
  rcases hres : cliLoop hardT start (initSt start) trace with ⟨out, fate, st'⟩
  have hchar := cliLoop_fate_char hardT start trace (initSt start)
  rw [hres] at hchar
  have h1 : out = CliOutcome.ok → fate = ChildFate.exited 0 := hchar.1
  have h2 : ∀ rc t, out = CliOutcome.exitErr rc t → fate = ChildFate.exited rc := hchar.2.1
  have h3 : out = CliOutcome.timedOut → fate = ChildFate.killedOnTimeout := hchar.2.2.1
  have h4 : out = CliOutcome.ranOut → fate = ChildFate.stillRunning := hchar.2.2.2
  have hrun : runCliModel hardT start (initSt start) trace
      = (out, cleanupFate fate, st') := by
    simp only [runCliModel, hres]
  rw [hrun]
  refine ⟨?_, ?_, ?_, ?_, ?_⟩
  · show cleanupFate fate ≠ ChildFate.stillRunning
    cases fate <;> simp [cleanupFate]
  · intro h
    have := h1 h
    subst this
    rfl
  · intro rc t h
    have := h2 rc t h
    subst this
    rfl
  · intro h
    have := h3 h
    subst this
    rfl
  · intro h
    have := h4 h
    subst this
    rfl

/-- Witness for C3 at two concrete traces: a run that ends with a normal
exit (code 0) and a run that hits the hard timeout. -/
theorem cli_child_killed_witness :
    (runCliModel 100 0 (initSt 0)
      [{ line := some "Page 1/2".toList, now := 1, exitCode := none },
       { line := none, now := 2, exitCode := some 0 }]).2.1 = ChildFate.exited 0
    ∧ (runCliModel 100 0 (initSt 0)
      [{ line := none, now := 500, exitCode := none }]).2.1 = ChildFate.killedOnTimeout := by
  refine ⟨?_, ?_⟩
  · exact (cli_child_killed_on_all_paths 100 0
      [{ line := some "Page 1/2".toList, now := 1, exitCode := none },
       { line := none, now := 2, exitCode := some 0 }]).2.1 (by decide)
  · exact (cli_child_killed_on_all_paths 100 0
      [{ line := none, now := 500, exitCode := none }]).2.2.2.1 (by decide)

/-- Reaching the first idle poll past the deadline: every earlier
observation either carried a line or was an idle poll below the deadline,
so the loop neither broke nor raised before; at the first idle
observation with the process still running and elapsed time above
`hard_timeout_sec`, the loop kills the child and raises the timeout. -/
theorem cliLoop_timeout_of_idle (hardT start : Nat) (o : Obs) (rest : List Obs)
    (ho1 : o.line = none) (ho2 : o.exitCode = none) (ho3 : o.now - start > hardT) :
    ∀ (pre : List Obs) (st : LoopSt),
      (∀ p ∈ pre, p.line.isSome ∨ (p.exitCode = none ∧ p.now - start ≤ hardT)) →
      (cliLoop hardT start st (pre ++ o :: rest)).1 = CliOutcome.timedOut
      ∧ (cliLoop hardT start st (pre ++ o :: rest)).2.1 = ChildFate.killedOnTimeout := by
  intro pre
  induction pre with
  | nil =>
    intro st _
    simp [cliLoop, ho1, ho2, ho3]
  | cons p pre ih =>
    intro st hpre
    have hp := hpre p (List.mem_cons_self p pre)
    have hrest : ∀ q ∈ pre, q.line.isSome ∨ (q.exitCode = none ∧ q.now - start ≤ hardT) :=
      fun q hq => hpre q (List.mem_cons_of_mem p hq)
    cases hl : p.line with
    | some l =>
      simpa [cliLoop, hl] using ih _ hrest
    | none =>
      rcases hp with hs | ⟨hec, hle⟩
      · rw [hl] at hs
        exact absurd hs (by simp)
      · have hnt : ¬ (p.now - start > hardT) := not_lt.mpr hle
        simpa [cliLoop, hl, hec, hnt] using ih _ hrest

/-- C2 (amended): at the first poll iteration that finds no pending
output line while the process has not exited and the elapsed wall-clock
time exceeds `hard_timeout_sec`, the supervisor kills the subprocess and
raises the timeout error, whose type is distinct from the non-zero-exit
error; iterations that do read an output line defer the timeout check. -/
theorem cli_hard_timeout_on_idle_poll (hardT start : Nat) (pre rest : List Obs) (o : Obs)
    (hpre : ∀ p ∈ pre, p.line.isSome ∨ (p.exitCode = none ∧ p.now - start ≤ hardT))
    (ho1 : o.line = none) (ho2 : o.exitCode = none) (ho3 : o.now - start > hardT) :
    (runCliModel hardT start (initSt start) (pre ++ o :: rest)).1 = CliOutcome.timedOut
    ∧ (runCliModel hardT start (initSt start) (pre ++ o :: rest)).2.1
      = ChildFate.killedOnTimeout
    ∧ ∀ rc t, (CliOutcome.timedOut : CliOutcome) ≠ CliOutcome.exitErr rc t := by
  have h := cliLoop_timeout_of_idle hardT start o rest ho1 ho2 ho3 pre (initSt start) hpre
  refine ⟨?_, ?_, ?_⟩
  · show (cliLoop hardT start (initSt start) (pre ++ o :: rest)).1 = CliOutcome.timedOut
    exact h.1
  · show cleanupFate (cliLoop hardT start (initSt start) (pre ++ o :: rest)).2.1
      = ChildFate.killedOnTimeout
    rw [h.2]
    rfl
  · intro rc t
    simp

/-- Witness for the C2 amended theorem: two noise polls/lines below the
deadline, then an idle poll at 3600s with a 10s hard timeout. -/
theorem cli_hard_timeout_witness :
    (runCliModel 10 0 (initSt 0)
      ([{ line := some "working".toList, now := 5, exitCode := none },
        { line := none, now := 8, exitCode := none }]
       ++ { line := none, now := 3600, exitCode := none } :: [])).1 = CliOutcome.timedOut := by
  exact (cli_hard_timeout_on_idle_poll 10 0
    [{ line := some "working".toList, now := 5, exitCode := none },
     { line := none, now := 8, exitCode := none }] []
    { line := none, now := 3600, exitCode := none }
    (by decide) rfl rfl (by decide)).1

/-- C2 counterexample (claim as stated is false): with a 10-second hard
timeout, a subprocess that is still producing output at time 99999 —
elapsed time far beyond the timeout, process not yet exited — and then
exits normally is run to successful completion; no timeout error is ever
raised, because the timeout check runs only on polls that read no line. -/
theorem cli_hard_timeout_claim_false :
    (runCliModel 10 0 (initSt 0)
      [{ line := some "still working".toList, now := 99999, exitCode := none },
       { line := none, now := 99999, exitCode := some 0 }]).1 = CliOutcome.ok
    ∧ 99999 - 0 > 10 :=
  ⟨by decide, by decide⟩

/-! ## C9 — progress monotonicity -/

theorem lineStep_snd_eq (last : ℚ) (l : List Char) :
    (lineStep last l).1.2 = (lineStep last l).2 := by
  rcases h : extract_page_progress l with _ | ⟨c, t⟩ <;> simp [lineStep, h]

theorem processLines_cons (last : ℚ) (l : List Char) (ls : List (List Char)) :
    processLines last (l :: ls)
      = ((lineStep last l).1 :: (processLines (lineStep last l).2 ls).1,
         (processLines (lineStep last l).2 ls).2) := by
  rcases h : lineStep last l with ⟨e, f⟩
  simp [processLines, h]

theorem emittedFracs_cons (last : ℚ) (l : List Char) (ls : List (List Char)) :
    emittedFracs last (l :: ls)
      = (lineStep last l).1.2 :: emittedFracs (lineStep last l).2 ls := by
  simp [emittedFracs, processLines_cons]

/-- The final `last_frac` equals the clamped fraction of the last page
marker found in the line sequence (or the initial value when none). -/
theorem processLines_fin (ls : List (List Char)) : ∀ last : ℚ,
    (processLines last ls).2
      = ((ls.filterMap extract_page_progress).map (fun p => pageFrac p.1 p.2)).getLastD last := by
  induction ls with
  | nil => intro last; simp [processLines]
  | cons l ls ih =>
    intro last
    rcases h : extract_page_progress l with _ | ⟨c, t⟩
    · have h1 : lineStep last l = ((Msg.raw l, last), last) := by simp [lineStep, h]
      rw [processLines_cons, h1, List.filterMap_cons_none h]
      exact ih last
    · have h1 : lineStep last l = ((Msg.page c t, pageFrac c t), pageFrac c t) := by
        simp [lineStep, h]
      rw [processLines_cons, h1, List.filterMap_cons_some h, List.map_cons,
        List.getLastD_cons]
      exact ih (pageFrac c t)

/-- The default of `getLastD` is irrelevant on a nonempty list, and it is
what `getLast?` returns. -/
theorem getLast?_eq_getLastD_of_cons (x : ℚ) (rest : List ℚ) : ∀ d : ℚ,
    (x :: rest).getLast? = some ((x :: rest).getLastD d) := by
  induction rest generalizing x with
  | nil => intro d; simp
  | cons y rest ih =>
    intro d
    rw [List.getLast?_cons_cons, List.getLastD_cons]
    exact ih y x

/-- The last emitted fraction is the final `last_frac`. -/
theorem emittedFracs_getLastD (ls : List (List Char)) : ∀ last : ℚ,
    (emittedFracs last ls).getLastD last = (processLines last ls).2 := by
  induction ls with
  | nil => intro last; simp [emittedFracs, processLines]
  | cons l ls ih =>
    intro last
    rw [emittedFracs_cons, List.getLastD_cons, lineStep_snd_eq, ih, processLines_cons]

/-- Transfer of monotonicity: if the clamped marker fractions, prefixed
with the running `last_frac`, form a non-decreasing chain, so do the
emitted fractions (non-matching lines repeat the last value). -/
theorem emitted_chain (ls : List (List Char)) : ∀ last : ℚ,
    List.Chain' (· ≤ ·)
      (last :: (ls.filterMap extract_page_progress).map (fun p => pageFrac p.1 p.2)) →
    List.Chain' (· ≤ ·) (last :: emittedFracs last ls) := by
  induction ls with
  | nil =>
    intro last _
    simp [emittedFracs, processLines]
  | cons l ls ih =>
    intro last hch
    rcases h : extract_page_progress l with _ | ⟨c, t⟩
    · have h1 : lineStep last l = ((Msg.raw l, last), last) := by simp [lineStep, h]
      rw [emittedFracs_cons, h1]
      rw [List.filterMap_cons_none h] at hch
      exact List.chain'_cons.mpr ⟨le_refl last, ih last hch⟩
    · have h1 : lineStep last l = ((Msg.page c t, pageFrac c t), pageFrac c t) := by
        simp [lineStep, h]
      rw [emittedFracs_cons, h1]
      rw [List.filterMap_cons_some h, List.map_cons] at hch
      obtain ⟨hle, hch'⟩ := List.chain'_cons.mp hch
      exact List.chain'_cons.mpr ⟨hle, ih (pageFrac c t) hch'⟩

theorem pageFrac_bounds (c t : Nat) : 0 ≤ pageFrac c t ∧ pageFrac c t ≤ 1 := by
  unfold pageFrac
  constructor
  · exact le_max_left 0 _
  · exact max_le (by norm_num) (min_le_right _ _)

/-- The clamp is the identity on an in-range page marker. -/
theorem pageFrac_eq (c t : Nat) (ht : 0 < t) (hc : c ≤ t) :
    pageFrac c t = (c : ℚ) / (t : ℚ) := by
  unfold pageFrac
  rw [max_eq_left ht]
  have htq : (0 : ℚ) < (t : ℚ) := by exact_mod_cast ht
  have hx1 : (c : ℚ) / (t : ℚ) ≤ 1 := by
    rw [div_le_one htq]
    exact_mod_cast hc
  have hx0 : (0 : ℚ) ≤ (c : ℚ) / (t : ℚ) := by positivity
  rw [min_eq_left hx1, max_eq_right hx0]

/-- Every emitted fraction lies in `[0, 1]` (the running value starts
there and page markers are clamped there). -/
theorem emitted_bounds (ls : List (List Char)) : ∀ last : ℚ, 0 ≤ last → last ≤ 1 →
    ∀ f ∈ emittedFracs last ls, 0 ≤ f ∧ f ≤ 1 := by
  induction ls with
  | nil =>
    intro last _ _ f hf
    simp [emittedFracs, processLines] at hf
  | cons l ls ih =>
    intro last h0 h1 f hf
    rcases h : extract_page_progress l with _ | ⟨c, t⟩
    · have he : lineStep last l = ((Msg.raw l, last), last) := by simp [lineStep, h]
      rw [emittedFracs_cons, he] at hf
      rcases List.mem_cons.mp hf with rfl | hf'
      · exact ⟨h0, h1⟩
      · exact ih last h0 h1 f hf'
    · have he : lineStep last l = ((Msg.page c t, pageFrac c t), pageFrac c t) := by
        simp [lineStep, h]
      rw [emittedFracs_cons, he] at hf
      rcases List.mem_cons.mp hf with rfl | hf'
      · exact pageFrac_bounds c t
      · exact ih (pageFrac c t) (pageFrac_bounds c t).1 (pageFrac_bounds c t).2 f hf'

/-- C9: for a line sequence whose page markers are exactly 1/10, 3/10,
7/10, 10/10 in that order (interleaved with non-matching lines), the
fractions delivered to the progress callback are non-decreasing, end at
1, and each is a clamped value in `[0, 1]`. -/
theorem progress_fracs_monotone (ls : List (List Char))
    (h : ls.filterMap extract_page_progress = [(1, 10), (3, 10), (7, 10), (10, 10)]) :
    List.Chain' (· ≤ ·) (emittedFracs 0 ls)
    ∧ (emittedFracs 0 ls).getLast? = some 1
    ∧ ∀ f ∈ emittedFracs 0 ls, 0 ≤ f ∧ f ≤ 1 := by
  obtain ⟨l0, ls0, rfl⟩ : ∃ l0 ls0, ls = l0 :: ls0 := by
    cases ls with
    | nil => rw [List.filterMap_nil] at h; exact absurd h (by simp)
    | cons l0 ls0 => exact ⟨l0, ls0, rfl⟩
  refine ⟨?_, ?_, emitted_bounds _ 0 le_rfl (by norm_num)⟩
  · have hm : List.Chain' (· ≤ ·)
        ((0 : ℚ) :: ((l0 :: ls0).filterMap extract_page_progress).map
          (fun p => pageFrac p.1 p.2)) := by
      rw [h]
      simp only [List.map_cons, List.map_nil]
      rw [pageFrac_eq 1 10 (by norm_num) (by norm_num),
          pageFrac_eq 3 10 (by norm_num) (by norm_num),
          pageFrac_eq 7 10 (by norm_num) (by norm_num),
          pageFrac_eq 10 10 (by norm_num) (by norm_num)]
      simp only [List.chain'_cons, List.chain'_singleton, and_true]
      refine ⟨by norm_num, by norm_num, by norm_num, by norm_num⟩
    exact (emitted_chain _ 0 hm).tail
  · have hsh : emittedFracs 0 (l0 :: ls0)
        = (lineStep 0 l0).1.2 :: emittedFracs (lineStep 0 l0).2 ls0 :=
      emittedFracs_cons 0 l0 ls0
    rw [hsh, getLast?_eq_getLastD_of_cons _ _ 0, ← hsh,
        emittedFracs_getLastD (l0 :: ls0) 0, processLines_fin (l0 :: ls0) 0, h]
    simp only [List.map_cons, List.map_nil, List.getLastD_cons, List.getLastD_nil]
    rw [pageFrac_eq 10 10 (by norm_num) (by norm_num)]
    norm_num

/-- Witness for C9: a concrete interleaved log. -/
theorem progress_fracs_monotone_witness :
    (["Scanning contents".toList, "Page 1/10".toList, "Page 3/10".toList,
      "deskew angle 0.8".toList, "Page 7/10".toList, "Page 10/10".toList,
      "Image optimization".toList].filterMap extract_page_progress
      = [(1, 10), (3, 10), (7, 10), (10, 10)])
    ∧ (List.Chain' (· ≤ ·) (emittedFracs 0
        ["Scanning contents".toList, "Page 1/10".toList, "Page 3/10".toList,
         "deskew angle 0.8".toList, "Page 7/10".toList, "Page 10/10".toList,
         "Image optimization".toList])
      ∧ (emittedFracs 0
        ["Scanning contents".toList, "Page 1/10".toList, "Page 3/10".toList,
         "deskew angle 0.8".toList, "Page 7/10".toList, "Page 10/10".toList,
         "Image optimization".toList]).getLast? = some 1
      ∧ ∀ f ∈ emittedFracs 0
        ["Scanning contents".toList, "Page 1/10".toList, "Page 3/10".toList,
         "deskew angle 0.8".toList, "Page 7/10".toList, "Page 10/10".toList,
         "Image optimization".toList], 0 ≤ f ∧ f ≤ 1) :=
  ⟨by decide, progress_fracs_monotone _ (by decide)⟩

end DocMgr
